import Mathlib

/-!
Verification development for the Yahoo Finance symbol scraper
(`yh_get_all_sym.py`).  The crawl logic is embedded shallowly:

* Python string primitives used by `extract_count` (`str.find`, slicing,
  `int(...)`) are modelled over `List Char`, restricted to the ASCII
  whitespace forms Python accepts for `int`/`strip`.
* The network is an oracle: per-URL, per-attempt outcomes for the retry
  layer, and a per-URL resolved outcome (`Env.fetch`) for the crawl layer;
  `envOf` ties the two together through the 3-attempt retry loop.
* HTML row extraction (BeautifulSoup) is the external Page Parser
  collaborator, modelled as `Env.rows : body → list of symbol-cell texts`;
  the stripping/non-empty filtering done by `process_block` itself is kept.
* Python `set` becomes `Finset String`; `asyncio.gather` + sequential
  `set.update` becomes a fold of unions (set-equal regardless of order).
-/

/-- ASCII whitespace recognised by Python `str.strip()` / `int()`
(space, tab, LF, VT, FF, CR); an ASCII approximation of Python's fuller
Unicode whitespace set, which never matters for the digit bodies used here. -/
def isPySpace (c : Char) : Bool :=
  c = ' ' || c = Char.ofNat 9 || c = Char.ofNat 10 || c = Char.ofNat 11 ||
    c = Char.ofNat 12 || c = Char.ofNat 13

/-- Strip leading and trailing whitespace, as Python `str.strip()`. -/
def pyStripWS (l : List Char) : List Char :=
  ((l.dropWhile isPySpace).reverse.dropWhile isPySpace).reverse

/-- Valid digit body for Python `int(...)` after sign removal: non-empty,
digits with single underscores allowed only between digits. -/
def digitsChunk : List Char → Bool
  | [] => false
  | [c] => c.isDigit
  | c :: d :: rest =>
    c.isDigit && (if d = '_' then digitsChunk rest else digitsChunk (d :: rest))

/-- Numeric value of a digit body (underscore separators ignored). -/
def digitsValue (l : List Char) : Nat :=
  (l.filter (fun c => c ≠ '_')).foldl (fun n c => n * 10 + (c.toNat - 48)) 0

/-- Python `int(str)`: strip whitespace, optional sign, digit body;
`none` models the `ValueError` raised on malformed input. -/
def pyInt (l : List Char) : Option Int :=
  match pyStripWS l with
  | '+' :: rest => if digitsChunk rest then some (Int.ofNat (digitsValue rest)) else none
  | '-' :: rest => if digitsChunk rest then some (-(Int.ofNat (digitsValue rest))) else none
  | s => if digitsChunk s then some (Int.ofNat (digitsValue s)) else none

/-- First index at or after which `needle` occurs in the remaining list,
offset bookkeeping for `pyFind`. -/
def findSubAux (needle : List Char) : List Char → Nat → Option Nat
  | [], i => if needle.isPrefixOf ([] : List Char) then some i else none
  | c :: tl, i =>
    if needle.isPrefixOf (c :: tl) then some i else findSubAux needle tl (i + 1)

/-- Python `str.find(needle, start)` for `start ≥ 0`: index of the first
occurrence at or after `start`, `-1` if none. -/
def pyFind (l needle : List Char) (start : Nat) : Int :=
  if start ≤ l.length then
    match findSubAux needle (l.drop start) 0 with
    | some i => Int.ofNat (start + i)
    | none => -1
  else -1

/-- Python slice `l[a:b]` (step 1): negative indices count from the end,
out-of-range indices clamp. -/
def pySlice (l : List Char) (a b : Int) : List Char :=
  let n : Int := Int.ofNat l.length
  let a' : Nat := (if a < 0 then max 0 (n + a) else a).toNat
  let b' : Nat := (if b < 0 then max 0 (n + b) else b).toNat
  (l.take b').drop a'

/-- The slice of `body` examined by `extract_count`:
`body[body.find('Stocks (') + 8 : body.find(')', start)]`. -/
def countSlice (body : String) : List Char :=
  let l := body.data
  let s : Int := pyFind l ("Stocks (".data) 0 + 8
  let e : Int := pyFind l [')'] s.toNat
  pySlice l s e

/-- `extract_count(body, search_term)` from the source (the second Python
parameter is only used for logging and is dropped here): parse the count
between the `'Stocks ('` marker and the next `')'`, returning `0` when
`int(...)` would raise `ValueError`/`TypeError`. -/
def extract_count (body : String) : Int :=
  match pyInt (countSlice body) with
  | some n => n
  | none => 0

/-- The retry loop of `fetch_url`, structurally recursive on the number of
remaining iterations (`remaining = retries - attempt` at each call).
Returns the outcome together with the number of `asyncio.sleep(1)` delays
performed.  `Except.ok none` models Python's implicit `return None` when the
loop runs zero iterations (`retries = 0`); it is unreachable for the
`retries = 3` used by the crawler. -/
def fetchGo (oracle : Nat → Except String String) (retries : Nat) :
    Nat → Nat → Nat → Except String (Option String) × Nat
  | 0, _, sleeps => (Except.ok none, sleeps)
  | remaining + 1, attempt, sleeps =>
    match oracle attempt with
    | Except.ok body => (Except.ok (some body), sleeps)
    | Except.error e =>
      if attempt = retries - 1 then (Except.error e, sleeps)
      else fetchGo oracle retries remaining (attempt + 1) (sleeps + 1)

/-- `fetch_url(session, url, retries)`: `oracle n` is the outcome of
attempt `n` (0-indexed) of `session.get` + `raise_for_status` + body read
for the fixed URL. -/
def fetch_url (oracle : Nat → Except String String) (retries : Nat) :
    Except String (Option String) × Nat :=
  fetchGo oracle retries retries 0 0

/-- The block-fetch URL built by `process_block`
(`f"...lookup/equity?s={search_term}&t=A&b={block}&c=100"`). -/
def blockUrl (t : String) (block : Int) : String :=
  "https://finance.yahoo.com/lookup/equity?s=" ++ t ++ "&t=A&b=" ++ toString block ++ "&c=100"

/-- The probe URL built by `process_search_term`
(`f"...lookup/equity?s={search_term}&t=A&b=0&c=25"`). -/
def probeUrl (t : String) : String :=
  "https://finance.yahoo.com/lookup/equity?s=" ++ t ++ "&t=A&b=0&c=25"

/-- The crawl's external world: `fetch url` is the resolved outcome of
`await fetch_url(session, url)` (body, or the exception escaping after
retry exhaustion), and `rows body` is the list of texts of the
`td[aria-label=Symbol]` cells that BeautifulSoup extracts from the
`W(100%)` table of `body` (empty when the table is absent) — the external
Page Parser collaborator. -/
structure Env where
  fetch : String → Except String String
  rows : String → List String

/-- Resolve a per-attempt oracle through the 3-retry `fetch_url` layer into
a per-URL outcome (the `retries = 3` default is the only one the crawler
uses, so the `none` branch is unreachable). -/
def fetchRes (oracles : String → Nat → Except String String) (url : String) :
    Except String String :=
  match fetch_url (oracles url) 3 with
  | (Except.ok (some body), _) => Except.ok body
  | (Except.ok none, _) => Except.error "no attempt"
  | (Except.error e, _) => Except.error e

/-- Build an `Env` from per-attempt fetch oracles and a row extractor. -/
def envOf (oracles : String → Nat → Except String String)
    (rows : String → List String) : Env :=
  ⟨fetchRes oracles, rows⟩

/-- Python `str.strip()` on the symbol-cell text. -/
def pyStrip (s : String) : String := String.mk (pyStripWS s.data)

/-- `process_block(session, search_term, block)`: fetch one 100-row page and
collect the stripped, non-empty symbol-cell texts; any error (including
retry exhaustion of the fetch) is caught and yields the empty set. -/
def process_block (env : Env) (t : String) (block : Int) : Finset String :=
  match env.fetch (blockUrl t block) with
  | Except.error _ => ∅
  | Except.ok body =>
    (((env.rows body).map pyStrip).filter (fun s => s ≠ "")).toFinset

/-- The block offsets `range(0, min(count, 9000), 100)` planned by
`process_search_term`.  Since `min(count, 9000) ≤ 9000`, that range is
exactly the multiples of 100 below `min(count, 9000)`, all of which lie
among the first 90 multiples of 100. -/
def planBlocks (count : Int) : List Int :=
  ((List.range 90).map (fun i : Nat => 100 * (i : Int))).filter (fun b => b < min count 9000)

/-- `process_search_term(session, search_term)`: probe the 25-row page for
the count, return `∅` when the count is 0, otherwise gather all planned
blocks and union their results; any error (in particular a probe fetch
that exhausts its retries) is caught and yields the empty set. -/
def process_search_term (env : Env) (t : String) : Finset String :=
  match env.fetch (probeUrl t) with
  | Except.error _ => ∅
  | Except.ok body =>
    let count := extract_count body
    if count = 0 then ∅
    else (planBlocks count).foldl (fun s b => s ∪ process_block env t b) ∅

/-- `search_chars = [chr(x) for x in range(65, 91)] + [chr(x) for x in range(48, 58)]`:
the fixed alphabet A–Z followed by 0–9. -/
def searchChars : List Char :=
  (List.range 26).map (fun i => Char.ofNat (65 + i)) ++
    (List.range 10).map (fun i => Char.ofNat (48 + i))

/-- The body of `main`'s inner loop for one `(c1, c2)`: crawl the
2-character term, and when the collected set has at least 9000 symbols,
crawl all 36 3-character extensions and union their results in. -/
def crawlPair (env : Env) (c1 c2 : Char) : Finset String :=
  let symbols := process_search_term env (String.mk [c1, c2])
  if 9000 ≤ symbols.card then
    searchChars.foldl
      (fun s c3 => s ∪ process_search_term env (String.mk [c1, c2, c3])) symbols
  else symbols

/-- `all_symbols.update(symbols)`: merging one term's result into the
global symbol set. -/
def merge (global incoming : Finset String) : Finset String := global ∪ incoming

/-- The final `all_symbols` set produced by `main`'s nested loops. -/
def allSymbols (env : Env) : Finset String :=
  searchChars.foldl (fun acc c1 =>
    searchChars.foldl (fun acc2 c2 => merge acc2 (crawlPair env c1 c2)) acc) ∅

/-- The search terms `main` hands to `process_search_term` for one
`(c1, c2)`, in order: the 2-character term, then — exactly when the
refinement condition `len(symbols) >= 9000` fires — its 36 extensions. -/
def pairTrace (env : Env) (c1 c2 : Char) : List String :=
  String.mk [c1, c2] ::
    (if 9000 ≤ (process_search_term env (String.mk [c1, c2])).card
     then searchChars.map (fun c3 => String.mk [c1, c2, c3]) else [])

/-- The full ordered sequence of search terms `main` processes, obtained by
instrumenting its nested loops with an accumulating list (appending each
term at the point of its `process_search_term` call). -/
def mainTrace (env : Env) : List String :=
  searchChars.foldl (fun tr c1 =>
    searchChars.foldl (fun tr2 c2 =>
      let t := String.mk [c1, c2]
      let withT := tr2 ++ [t]
      if 9000 ≤ (process_search_term env t).card
      then withT ++ searchChars.map (fun c3 => String.mk [c1, c2, c3])
      else withT) tr) []

/-- The `(c1, c2)` iteration order of `main`'s nested loops. -/
def mainPairs : List (Char × Char) :=
  searchChars.flatMap (fun c1 => searchChars.map (fun c2 => (c1, c2)))

/-- The global symbol set after the first `n` of the 1296 `(c1, c2)`
iterations of `main`. -/
def runState (env : Env) (n : Nat) : Finset String :=
  (mainPairs.take n).foldl (fun acc p => merge acc (crawlPair env p.1 p.2)) ∅

/-- Union of the `process_block` results over a list of block offsets. -/
def unionBlocks (env : Env) (t : String) (blocks : List Int) : Finset String :=
  blocks.foldr (fun b s => process_block env t b ∪ s) ∅

/-- A fold that appends a block of output per element is the flat map of
those blocks. -/
lemma foldl_step_eq {α β : Type} (g : α → List β) (step : List β → α → List β)
    (hstep : ∀ acc x, step acc x = acc ++ g x) :
    ∀ (l : List α) (init : List β), l.foldl step init = init ++ l.flatMap g := by
  intro l
  induction l with
  | nil => intro init; simp
  | cons a tl ih => intro init; simp [List.foldl_cons, hstep, ih, List.append_assoc]

/-- A left fold of unions equals the initial set joined with the right fold
of unions of the same elements. -/
lemma foldl_union_eq {β : Type} (f : β → Finset String) :
    ∀ (l : List β) (s : Finset String),
      l.foldl (fun acc x => acc ∪ f x) s = s ∪ l.foldr (fun x acc => f x ∪ acc) ∅ := by
  intro l
  induction l with
  | nil => intro s; simp
  | cons a tl ih => intro s; simp [List.foldl_cons, List.foldr_cons, ih, Finset.union_assoc]

/-- Filtering distributes over flat maps. -/
lemma filter_flatMap_eq {α β : Type} (p : β → Bool) (f : α → List β) :
    ∀ l : List α, (l.flatMap f).filter p = l.flatMap (fun a => (f a).filter p) := by
  intro l
  induction l with
  | nil => simp
  | cons a tl ih => simp [List.flatMap_cons, List.filter_append, ih]

/-- A flat map of singletons is a map. -/
lemma flatMap_singleton_eq_map {α β : Type} (f : α → β) (l : List α) :
    (l.flatMap fun x => [f x]) = l.map f := by
  induction l with
  | nil => simp
  | cons a tl ih => simp [List.flatMap_cons, ih]

lemma length_mk_two (c1 c2 : Char) : (String.mk [c1, c2]).length = 2 := rfl

lemma length_mk_three (c1 c2 c3 : Char) : (String.mk [c1, c2, c3]).length = 3 := rfl

/-- The instrumented nested loops of `main` process exactly the per-pair
traces, in the nested iteration order. -/
lemma mainTrace_eq (env : Env) :
    mainTrace env
      = searchChars.flatMap (fun c1 => searchChars.flatMap (fun c2 => pairTrace env c1 c2)) := by
  have houter : ∀ (tr : List String) (c1 : Char),
      (searchChars.foldl (fun tr2 c2 =>
        let t := String.mk [c1, c2]
        let withT := tr2 ++ [t]
        if 9000 ≤ (process_search_term env t).card
        then withT ++ searchChars.map (fun c3 => String.mk [c1, c2, c3])
        else withT) tr)
      = tr ++ searchChars.flatMap (fun c2 => pairTrace env c1 c2) := by
    intro tr c1
    refine foldl_step_eq _ _ ?_ searchChars tr
    intro acc c2
    by_cases h : 9000 ≤ (process_search_term env (String.mk [c1, c2])).card <;>
      simp [pairTrace, h, List.append_assoc]
  have h := foldl_step_eq
    (fun c1 => searchChars.flatMap (fun c2 => pairTrace env c1 c2)) _
    (fun acc c1 => houter acc c1) searchChars ([] : List String)
  simpa [mainTrace] using h

/-- Nested folds over the two character loops equal a single fold over the
materialised pair list. -/
lemma foldl_pairs_eq {γ : Type} (h : γ → Char → Char → γ) :
    ∀ (l1 : List Char) (init : γ),
      l1.foldl (fun a c1 => searchChars.foldl (fun a2 c2 => h a2 c1 c2) a) init
      = (l1.flatMap (fun c1 => searchChars.map (fun c2 => (c1, c2)))).foldl
          (fun a p => h a p.1 p.2) init := by
  intro l1
  induction l1 with
  | nil => intro init; simp
  | cons a tl ih =>
    intro init
    simp [List.foldl_cons, List.flatMap_cons, List.foldl_append, List.foldl_map, ih]

/-- `main`'s nested accumulation is the fold over `mainPairs`. -/
lemma allSymbols_eq (env : Env) :
    allSymbols env = mainPairs.foldl (fun acc p => merge acc (crawlPair env p.1 p.2)) ∅ := by
  unfold allSymbols mainPairs
  exact foldl_pairs_eq (fun acc c1 c2 => merge acc (crawlPair env c1 c2)) searchChars ∅

/-- Folding merges over any pair list only grows the accumulator. -/
lemma subset_foldl_merge (env : Env) :
    ∀ (l : List (Char × Char)) (acc : Finset String),
      acc ⊆ l.foldl (fun a p => merge a (crawlPair env p.1 p.2)) acc := by
  intro l
  induction l with
  | nil => intro acc; simp
  | cons a tl ih =>
    intro acc
    simp only [List.foldl_cons]
    exact Finset.Subset.trans Finset.subset_union_left (ih (merge acc (crawlPair env a.1 a.2)))

/-- `fetch_url` with 3 retries returns the body of the first successful
attempt `k`, having slept once per preceding failure. -/
lemma fetch_url_ok_at (oracle : Nat → Except String String) (k : Nat) (body : String)
    (hk : k < 3) (hfail : ∀ i, i < k → ∃ e, oracle i = Except.error e)
    (hok : oracle k = Except.ok body) :
    fetch_url oracle 3 = (Except.ok (some body), k) := by
  interval_cases k
  · simp [fetch_url, fetchGo, hok]
  · obtain ⟨e0, h0⟩ := hfail 0 (by omega)
    simp [fetch_url, fetchGo, h0, hok]
  · obtain ⟨e0, h0⟩ := hfail 0 (by omega)
    obtain ⟨e1, h1⟩ := hfail 1 (by omega)
    simp [fetch_url, fetchGo, h0, h1, hok]

/-- `fetch_url` with 3 retries re-raises the third attempt's error after
two sleeps when every attempt fails. -/
lemma fetch_url_all_fail (oracle : Nat → Except String String) (e0 e1 e2 : String)
    (h0 : oracle 0 = Except.error e0) (h1 : oracle 1 = Except.error e1)
    (h2 : oracle 2 = Except.error e2) :
    fetch_url oracle 3 = (Except.error e2, 2) := by
  simp [fetch_url, fetchGo, h0, h1, h2]

/-- Existential form of retry exhaustion. -/
lemma fetch_url_exhaust (oracle : Nat → Except String String)
    (h : ∀ i, i < 3 → ∃ e, oracle i = Except.error e) :
    ∃ e, fetch_url oracle 3 = (Except.error e, 2) := by
  obtain ⟨e0, h0⟩ := h 0 (by omega)
  obtain ⟨e1, h1⟩ := h 1 (by omega)
  obtain ⟨e2, h2⟩ := h 2 (by omega)
  exact ⟨e2, fetch_url_all_fail oracle e0 e1 e2 h0 h1 h2⟩

/-- When the probe resolves, `process_search_term` is exactly the union of
its planned blocks' results (the `count = 0` early return coincides with
the empty block plan). -/
lemma process_search_term_ok (env : Env) (t : String) (body : String)
    (h : env.fetch (probeUrl t) = Except.ok body) :
    process_search_term env t = unionBlocks env t (planBlocks (extract_count body)) := by
  unfold process_search_term
  rw [h]
  by_cases hc : extract_count body = 0
  · have hp : planBlocks 0 = [] := by decide
    simp [hc, hp, unionBlocks]
  · simp only [if_neg hc]
    rw [foldl_union_eq (fun b => process_block env t b) (planBlocks (extract_count body)) ∅]
    simp [unionBlocks]

/-- Claim C2 (confirmed): for every probed count greater than 0, the
planned block offsets are exactly the multiples of 100 strictly below
`min(count, 9000)`, and at most 90 blocks are ever planned. -/
theorem planBlocks_spec (count : Int) (_hc : 0 < count) :
    (∀ b : Int, b ∈ planBlocks count ↔ 0 ≤ b ∧ (100 : Int) ∣ b ∧ b < min count 9000)
    ∧ (planBlocks count).length ≤ 90 := by
  constructor
  · intro b
    simp only [planBlocks, List.mem_filter, List.mem_map, List.mem_range, decide_eq_true_eq]
    constructor
    · rintro ⟨⟨i, hi, rfl⟩, hlt⟩
      exact ⟨by positivity, ⟨(i : Int), rfl⟩, hlt⟩
    · rintro ⟨hb0, ⟨k, rfl⟩, hlt⟩
      have h9 : (100 : Int) * k < 9000 := lt_of_lt_of_le hlt (min_le_right _ _)
      exact ⟨⟨k.toNat, by omega, by omega⟩, hlt⟩
  · calc (planBlocks count).length
        ≤ ((List.range 90).map (fun i : Nat => 100 * (i : Int))).length :=
          List.length_filter_le _ _
      _ = 90 := by rw [List.length_map, List.length_range]

/-- Witness for `planBlocks_spec` at count 250. -/
theorem planBlocks_spec_witness :
    (0 : Int) < 250 ∧
      ((∀ b : Int, b ∈ planBlocks 250 ↔ 0 ≤ b ∧ (100 : Int) ∣ b ∧ b < min 250 9000)
        ∧ (planBlocks 250).length ≤ 90) :=
  ⟨by decide, planBlocks_spec 250 (by decide)⟩

/-- Claim C3 (confirmed): `fetch_url` makes at most 3 attempts with one
fixed delay between consecutive attempts; if attempt `k` (0-indexed) is the
first to succeed it returns that attempt's body having performed exactly
`k` delays, and if all 3 attempts fail the last error is re-raised to the
caller after 2 delays. -/
theorem fetch_url_retry (oracle : Nat → Except String String) :
    (∀ k body, k < 3 → (∀ i, i < k → ∃ e, oracle i = Except.error e) →
      oracle k = Except.ok body → fetch_url oracle 3 = (Except.ok (some body), k))
    ∧ (∀ e0 e1 e2, oracle 0 = Except.error e0 → oracle 1 = Except.error e1 →
      oracle 2 = Except.error e2 → fetch_url oracle 3 = (Except.error e2, 2)) :=
  ⟨fun k body hk hfail hok => fetch_url_ok_at oracle k body hk hfail hok,
   fun e0 e1 e2 h0 h1 h2 => fetch_url_all_fail oracle e0 e1 e2 h0 h1 h2⟩

/-- Per-attempt oracle that fails twice and succeeds on the third try. -/
def oracleThird : Nat → Except String String :=
  fun n => if n = 2 then Except.ok "body" else Except.error "boom"

/-- Witness for `fetch_url_retry`: two failures then a success returns the
third body after exactly 2 delays. -/
theorem fetch_url_retry_witness :
    fetch_url oracleThird 3 = (Except.ok (some "body"), 2) :=
  (fetch_url_retry oracleThird).1 2 "body" (by omega)
    (fun i hi => ⟨"boom", by
      have h : i = 0 ∨ i = 1 := by omega
      rcases h with h | h <;> subst h <;> rfl⟩)
    rfl

/-- Claim C5 (counterexample): the block plan does not omit the rows the
probe already retrieved — for probed count 42 the planned blocks are
exactly `[0]`, and the offset-0 block URL requests 100 rows from row 0,
re-covering the probe's rows 0–24 (probe URL `b=0&c=25`). -/
theorem probe_overlap_counterexample :
    probeUrl "AA" = "https://finance.yahoo.com/lookup/equity?s=AA&t=A&b=0&c=25"
    ∧ blockUrl "AA" 0 = "https://finance.yahoo.com/lookup/equity?s=AA&t=A&b=0&c=100"
    ∧ planBlocks 42 = [0] :=
  ⟨by decide, by decide, by decide⟩

/-- Claim C5 (amended): for every probed count greater than 0, offset 0 is
among the planned blocks, so the 100-row block at offset 0 re-fetches the
range the 25-row probe covered instead of excluding it. -/
theorem planBlocks_zero_mem (count : Int) (hc : 0 < count) :
    (0 : Int) ∈ planBlocks count := by
  simp only [planBlocks, List.mem_filter, List.mem_map, List.mem_range, decide_eq_true_eq]
  exact ⟨⟨0, by omega, by omega⟩, lt_min hc (by omega)⟩

/-- Witness for `planBlocks_zero_mem` at count 42. -/
theorem planBlocks_zero_mem_witness : (0 : Int) < 42 ∧ (0 : Int) ∈ planBlocks 42 :=
  ⟨by decide, planBlocks_zero_mem 42 (by decide)⟩

/-- Claim C6 (counterexample): `extract_count` can return a negative value
(`"Stocks (-5)"` parses to `-5`), and can return a nonzero value on a body
that contains no `'Stocks ('` marker at all (`find` returns `-1`, so the
slice starts at position 7). -/
theorem extract_count_counterexample :
    extract_count "Stocks (-5)" = -5 ∧ extract_count "0000000123)" = 123 :=
  ⟨by decide, by decide⟩

/-- Claim C6 (amended): `extract_count` is total: it returns the Python-int
parse of the slice between `find('Stocks (') + 8` and the next `')'`
whenever that slice parses (the value may be negative, and the slice may
parse even without the marker), and 0 exactly when the parse fails. -/
theorem extract_count_total (body : String) :
    (pyInt (countSlice body) = none → extract_count body = 0)
    ∧ (∀ n : Int, pyInt (countSlice body) = some n → extract_count body = n) := by
  constructor
  · intro h; simp [extract_count, h]
  · intro n h; simp [extract_count, h]

/-- Witness for `extract_count_total` on a well-formed body. -/
theorem extract_count_total_witness :
    pyInt (countSlice "Stocks (7)") = some 7 ∧ extract_count "Stocks (7)" = 7 :=
  ⟨by decide, (extract_count_total "Stocks (7)").2 7 (by decide)⟩

/-- Claim C4 (confirmed): a block whose fetch fails all 3 attempts
contributes the empty set; a prefix whose probe fetch fails yields the
empty set; when the probe resolves, the prefix's result is the independent
fold of its blocks' contributions (so one failed block leaves the others
unaffected); and every 2-character prefix is processed regardless of the
environment, so the crawl always advances. -/
theorem fault_isolation :
    (∀ (oracles : String → Nat → Except String String) (rows : String → List String)
      (t : String) (b : Int),
      (∀ i, i < 3 → ∃ e, oracles (blockUrl t b) i = Except.error e) →
      process_block (envOf oracles rows) t b = ∅)
    ∧ (∀ (env : Env) (t : String), (∃ e, env.fetch (probeUrl t) = Except.error e) →
      process_search_term env t = ∅)
    ∧ (∀ (env : Env) (t body : String), env.fetch (probeUrl t) = Except.ok body →
      process_search_term env t
        = (planBlocks (extract_count body)).foldl (fun s b => s ∪ process_block env t b) ∅)
    ∧ (∀ (env : Env) (c1 c2 : Char), c1 ∈ searchChars → c2 ∈ searchChars →
      String.mk [c1, c2] ∈ mainTrace env) := by
  refine ⟨?_, ?_, ?_, ?_⟩
  · intro oracles rows t b h
    obtain ⟨e, he⟩ := fetch_url_exhaust (oracles (blockUrl t b)) h
    have hf : (envOf oracles rows).fetch (blockUrl t b) = Except.error e := by
      show fetchRes oracles (blockUrl t b) = Except.error e
      unfold fetchRes
      rw [he]
    unfold process_block
    rw [hf]
  · rintro env t ⟨e, he⟩
    unfold process_search_term
    rw [he]
  · intro env t body h
    unfold process_search_term
    rw [h]
    by_cases hc : extract_count body = 0
    · have hp : planBlocks 0 = [] := by decide
      simp [hc, hp]
    · simp [hc]
  · intro env c1 c2 h1 h2
    rw [mainTrace_eq]
    exact List.mem_flatMap.mpr ⟨c1, h1, List.mem_flatMap.mpr ⟨c2, h2, by simp [pairTrace]⟩⟩

/-- Per-attempt oracle where every attempt of every URL fails. -/
def oraclesFail : String → Nat → Except String String := fun _ _ => Except.error "boom"

/-- Environment in which every resolved fetch fails. -/
def envFail : Env := ⟨fun _ => Except.error "down", fun _ => []⟩

/-- Environment in which every fetch returns an empty body. -/
def envOkEmpty : Env := ⟨fun _ => Except.ok "", fun _ => []⟩

/-- Witness for `fault_isolation` on concrete environments. -/
theorem fault_isolation_witness :
    process_block (envOf oraclesFail (fun _ => [])) "AA" 0 = ∅
    ∧ process_search_term envFail "AA" = ∅
    ∧ process_search_term envOkEmpty "AA"
        = (planBlocks (extract_count "")).foldl
            (fun s b => s ∪ process_block envOkEmpty "AA" b) ∅
    ∧ String.mk ['A', 'A'] ∈ mainTrace envFail :=
  ⟨fault_isolation.1 oraclesFail (fun _ => []) "AA" 0 (fun i _ => ⟨"boom", rfl⟩),
   fault_isolation.2.1 envFail "AA" ⟨"down", rfl⟩,
   fault_isolation.2.2.1 envOkEmpty "AA" "" rfl,
   fault_isolation.2.2.2 envFail 'A' 'A' (by decide) (by decide)⟩

/-- Claim C10 (confirmed): the probe body feeds only `extract_count`; a
prefix's returned set is exactly the union of its planned blocks'
`process_block` results, and a refined pair's merged set adds exactly the
union of the 3-character extensions' `process_search_term` results. -/
theorem probe_count_only (env : Env) :
    (∀ t body, env.fetch (probeUrl t) = Except.ok body →
      process_search_term env t = unionBlocks env t (planBlocks (extract_count body)))
    ∧ (∀ c1 c2, crawlPair env c1 c2
        = process_search_term env (String.mk [c1, c2]) ∪
          (if 9000 ≤ (process_search_term env (String.mk [c1, c2])).card
           then searchChars.foldr
             (fun c3 s => process_search_term env (String.mk [c1, c2, c3]) ∪ s) ∅
           else ∅)) := by
  constructor
  · intro t body h
    exact process_search_term_ok env t body h
  · intro c1 c2
    unfold crawlPair
    by_cases h : 9000 ≤ (process_search_term env (String.mk [c1, c2])).card
    · simp only [h, if_true]
      exact foldl_union_eq
        (fun c3 => process_search_term env (String.mk [c1, c2, c3])) searchChars _
    · simp [h]

/-- Environment for the `probe_count_only` witness: the `"ZZ"` probe
reports 150 matches and every block page carries one paddable symbol. -/
def envC10 : Env :=
  ⟨fun url => if url = probeUrl "ZZ" then Except.ok "Stocks (150)" else Except.ok "page",
   fun body => if body = "page" then [" ZZZ ", ""] else []⟩

/-- Witness for `probe_count_only` at the `"ZZ"` probe. -/
theorem probe_count_only_witness :
    envC10.fetch (probeUrl "ZZ") = Except.ok "Stocks (150)"
    ∧ process_search_term envC10 "ZZ"
        = unionBlocks envC10 "ZZ" (planBlocks (extract_count "Stocks (150)")) :=
  have hfetch : envC10.fetch (probeUrl "ZZ") = Except.ok "Stocks (150)" := by
    show (if probeUrl "ZZ" = probeUrl "ZZ" then Except.ok "Stocks (150)"
      else Except.ok "page") = Except.ok "Stocks (150)"
    exact if_pos rfl
  ⟨hfetch, (probe_count_only envC10).1 "ZZ" "Stocks (150)" hfetch⟩

/-- Claim C9 (confirmed): merging into the global set is set union —
idempotent and order-commutable — the global set never holds duplicates,
`main`'s nested accumulation is the fold of merges over the pair sequence,
and the accumulated set grows monotonically over the run. -/
theorem merge_properties :
    (∀ S : Finset String, merge S S = S)
    ∧ (∀ g a b : Finset String, merge (merge g a) b = merge (merge g b) a)
    ∧ (∀ env : Env, (allSymbols env).toList.Nodup)
    ∧ (∀ env : Env, allSymbols env = runState env mainPairs.length)
    ∧ (∀ (env : Env) (n m : Nat), n ≤ m → runState env n ⊆ runState env m) := by
  refine ⟨?_, ?_, ?_, ?_, ?_⟩
  · intro S; exact Finset.union_self S
  · intro g a b; exact Finset.union_right_comm g a b
  · intro env; exact Finset.nodup_toList (allSymbols env)
  · intro env; rw [allSymbols_eq, runState, List.take_length]
  · intro env n m hnm
    have h2 : n + (m - n) = m := by omega
    have heq : mainPairs.take m = mainPairs.take n ++ (mainPairs.drop n).take (m - n) := by
      conv_lhs => rw [← h2]
      rw [List.take_add]
    unfold runState
    rw [heq, List.foldl_append]
    exact subset_foldl_merge env ((mainPairs.drop n).take (m - n)) _

/-- Witness for `merge_properties`: one merge step never shrinks the set. -/
theorem merge_properties_witness :
    (0 : Nat) ≤ 1 ∧ runState envFail 0 ⊆ runState envFail 1 :=
  ⟨by omega, merge_properties.2.2.2.2 envFail 0 1 (by omega)⟩

/-- Environment in which the `"AA"` probe reports a saturated count of
9000 while every block fetch exhausts its retries. -/
def envC1 : Env :=
  ⟨fun url => if url = probeUrl "AA" then Except.ok "Stocks (9000)" else Except.error "down",
   fun _ => []⟩

set_option maxRecDepth 40000 in
/-- Claim C1 (counterexample): the probed count for `"AA"` is 9000 (at the
window cap), yet the pair's trace holds no 3-character extension — the code
decides refinement from `len(symbols) >= 9000` on the collected set, which
is empty here because every block fetch fails, not from the probed count. -/
theorem refine_counterexample :
    extract_count "Stocks (9000)" = 9000
    ∧ envC1.fetch (probeUrl "AA") = Except.ok "Stocks (9000)"
    ∧ pairTrace envC1 'A' 'A' = ["AA"] := by
  refine ⟨by decide, ?_, by decide⟩
  show (if probeUrl "AA" = probeUrl "AA" then Except.ok "Stocks (9000)"
    else Except.error "down") = Except.ok "Stocks (9000)"
  exact if_pos rfl

/-- Claim C1 (amended): refinement of a 2-character pair occurs if and only
if the collected symbol set for that pair holds at least 9000 distinct
symbols — a function of the collected result set, not of the probed count. -/
theorem refine_iff_card (env : Env) (c1 c2 : Char) :
    (∃ s ∈ pairTrace env c1 c2, s.length = 3)
      ↔ 9000 ≤ (process_search_term env (String.mk [c1, c2])).card := by
  unfold pairTrace
  by_cases h : 9000 ≤ (process_search_term env (String.mk [c1, c2])).card
  · rw [if_pos h]
    refine iff_of_true ⟨String.mk [c1, c2, 'A'], ?_, length_mk_three c1 c2 'A'⟩ h
    exact List.mem_cons_of_mem _ (List.mem_map.mpr ⟨'A', by decide, rfl⟩)
  · rw [if_neg h]
    refine iff_of_false ?_ h
    rintro ⟨s, hs, h3⟩
    rcases List.mem_cons.mp hs with rfl | hnil
    · rw [length_mk_two] at h3
      exact absurd h3 (by decide)
    · exact absurd hnil (List.not_mem_nil s)

/-- Claim C7 (confirmed): the alphabet is exactly A–Z then 0–9 (36
characters); the 2-character terms processed are exactly the 36×36 cross
product in outer-first/inner-second order; and the full trace interleaves
each pair's extensions immediately after that pair's own term. -/
theorem main_enumeration (env : Env) :
    searchChars = "ABCDEFGHIJKLMNOPQRSTUVWXYZ0123456789".data
    ∧ (mainTrace env).filter (fun s => s.length == 2)
        = searchChars.flatMap (fun c1 => searchChars.map (fun c2 => String.mk [c1, c2]))
    ∧ mainTrace env
        = searchChars.flatMap (fun c1 => searchChars.flatMap (fun c2 => pairTrace env c1 c2)) := by
  refine ⟨by decide, ?_, mainTrace_eq env⟩
  have hinner : ∀ c1 c2,
      (pairTrace env c1 c2).filter (fun s => s.length == 2) = [String.mk [c1, c2]] := by
    intro c1 c2
    have hext : ∀ (l : List Char),
        (l.map (fun c3 => String.mk [c1, c2, c3])).filter (fun s => s.length == 2) = [] := by
      intro l
      refine List.filter_eq_nil_iff.mpr ?_
      intro s hs
      obtain ⟨c3, _, rfl⟩ := List.mem_map.mp hs
      simp [length_mk_three]
    unfold pairTrace
    by_cases h : 9000 ≤ (process_search_term env (String.mk [c1, c2])).card
    · rw [if_pos h, List.filter_cons, hext searchChars]
      simp [length_mk_two]
    · rw [if_neg h, List.filter_cons]
      simp [length_mk_two]
  rw [mainTrace_eq env]
  simp only [filter_flatMap_eq, hinner, flatMap_singleton_eq_map]

/-- Claim C8 (confirmed): refinement is single-level — in every
environment (hence for any probed counts and any result-set sizes) every
term the crawl processes has length 2 or 3; a 3-character term never
spawns further refinement. -/
theorem trace_lengths (env : Env) :
    (mainTrace env).all (fun s => s.length == 2 || s.length == 3) = true := by
  rw [mainTrace_eq env, List.all_eq_true]
  intro s hs
  obtain ⟨c1, _, hs⟩ := List.mem_flatMap.mp hs
  obtain ⟨c2, _, hs⟩ := List.mem_flatMap.mp hs
  unfold pairTrace at hs
  rcases List.mem_cons.mp hs with rfl | hext
  · simp [length_mk_two]
  · by_cases h : 9000 ≤ (process_search_term env (String.mk [c1, c2])).card
    · rw [if_pos h] at hext
      obtain ⟨c3, _, rfl⟩ := List.mem_map.mp hext
      simp [length_mk_three]
    · rw [if_neg h] at hext
      exact absurd hext (List.not_mem_nil s)

